import Mathlib

/-!
Shallow embedding of `image-sorter` (`src/app.rs`) and verification of its
specification claims.

Paths (`PathBuf`) are modelled as `String` (the program only ever displays
them), `usize`/`u16` as `Nat` with explicit `% 65536` where the `u16`
wrapping of the source matters, and the filesystem as explicit data
(`PathState` for existence/kind queries, `Fs` for directory trees walked by
image discovery).  Fallible code returns `Except String`.
-/

namespace ImageSorter

/-- `Action` from `src/app.rs` (paths as strings). -/
inductive Action where
  | Skip (path : String)
  | Move (path : String) (dest : String)
  | Rename (name : String)
  | MkDir (dest : String)
  | Delete (path : String)
  deriving DecidableEq, Repr

/-- `Action::is_poppable`: everything except `MkDir` is poppable. -/
def Action.is_poppable : Action → Bool
  | .MkDir _ => false
  | _ => true

/-- `Action::queue_step`: `Skip`/`Move`/`Delete` advance the cursor by one,
`Rename`/`MkDir` by zero. -/
def Action.queue_step : Action → Nat
  | .Skip _ | .Move _ _ | .Delete _ => 1
  | .Rename _ | .MkDir _ => 0

/-- Sum of `queue_step` over a log (the derived view the cursor must match). -/
def sumSteps (l : List Action) : Nat :=
  (l.map Action.queue_step).sum

/-- The `App` struct: every field of the Rust struct except `last_save`
(an `Instant` wall-clock timestamp, irrelevant to the state machine).
`script_offset` is the `(y, x)` pair of `u16` scroll offsets. -/
structure AppState where
  tab : Nat
  script_offset : Nat × Nat
  images : List String
  current : Nat
  key_mapping : List (Char × String)
  actions : List Action
  output : String
  enable_input : Bool
  input : List Char
  input_idx : Nat
  deriving DecidableEq, Repr

/-- The state `App::new` builds: `App::default()` with `images`,
`key_mapping`, the pre-seeded `actions` and `output` filled in. -/
def app_new (images : List String) (km : List (Char × String))
    (seed : List Action) (output : String) : AppState :=
  { tab := 0
    script_offset := (0, 0)
    images := images
    current := 0
    key_mapping := km
    actions := seed
    output := output
    enable_input := false
    input := []
    input_idx := 0 }

/-- `App::pop_action`: if the log is nonempty, remove the tail action when it
is poppable, and (regardless) decrement the cursor by the tail action's queue
step.  The Rust `self.current -= step` is `usize` subtraction; `Nat`
truncated subtraction agrees with it whenever no underflow occurs (claim C9
shows reachable states never underflow). -/
def pop_action (s : AppState) : AppState :=
  match s.actions.getLast? with
  | none => s
  | some last =>
    { s with
      actions := if last.is_poppable then s.actions.dropLast else s.actions
      current := s.current - last.queue_step }

/-- `App::push_action`: no-op when the cursor equals the image count,
otherwise advance the cursor by the action's queue step and append it. -/
def push_action (s : AppState) (a : Action) : AppState :=
  if s.current = s.images.length then s
  else { s with current := s.current + a.queue_step, actions := s.actions ++ [a] }

/-- `App::switch_tab`: cycle `tab` over the two tabs, reset the offsets. -/
def switch_tab (s : AppState) : AppState :=
  { s with tab := (s.tab + 1) % 2, script_offset := (0, 0) }

/-- `App::scroll_up`: decrement `y` when positive. -/
def scroll_up (s : AppState) : AppState :=
  if s.script_offset.1 > 0 then
    { s with script_offset := (s.script_offset.1 - 1, s.script_offset.2) }
  else s

/-- `App::scroll_down`: increment `y` while `y < actions.len() as u16 + 3`;
the cast and addition are `u16` arithmetic, hence the `% 65536`. -/
def scroll_down (s : AppState) : AppState :=
  if s.script_offset.1 < (s.actions.length % 65536 + 3) % 65536 then
    { s with script_offset := (s.script_offset.1 + 1, s.script_offset.2) }
  else s

/-- `App::scroll_left`: decrement `x` when positive. -/
def scroll_left (s : AppState) : AppState :=
  if s.script_offset.2 > 0 then
    { s with script_offset := (s.script_offset.1, s.script_offset.2 - 1) }
  else s

/-- `App::scroll_right`: increment `x`, wrapping as `u16`. -/
def scroll_right (s : AppState) : AppState :=
  { s with script_offset := (s.script_offset.1, (s.script_offset.2 + 1) % 65536) }

/-- The line `App::write` pushes for one action: `MkDir`/`Move`/`Delete`
produce their shell command, `Skip`/`Rename` produce nothing. -/
def actionLine : Action → Option String
  | .MkDir folder => some ("mkdir -p \"" ++ folder ++ "\"")
  | .Move image_path folder =>
      some ("mv \"" ++ image_path ++ "\" \"" ++ folder ++ "\"")
  | .Delete image => some ("rm \"" ++ image ++ "\"")
  | _ => none

/-- The script text `App::write` produces: the loop accumulating `lines`
starting from `["#!/bin/sh"]`, joined by newline.  (The actual file write
and the `last_save` timestamp are I/O, outside the pure model.) -/
def writeScript (actions : List Action) : String :=
  let lines : List String :=
    actions.foldl
      (fun ls a =>
        match actionLine a with
        | some line => ls ++ [line]
        | none => ls)
      ["#!/bin/sh"]
  String.intercalate "\n" lines

/-- What a queried path looks like to `parse_key_mapping`:
absent (`!exists()`), an existing directory, or an existing non-directory. -/
inductive PathState where
  | absent
  | directory
  | nonDirectory
  deriving DecidableEq, Repr

/-- `BTreeMap::insert` on the association-list model of the binding map:
replace the value when the key is present, otherwise add the pair.  (The
claims only depend on lookup semantics, not on `BTreeMap`ʼs key order.) -/
def insertKey : List (Char × String) → Char → String → List (Char × String)
  | [], k, v => [(k, v)]
  | (k', v') :: rest, k, v =>
      if k = k' then (k, v) :: rest else (k', v') :: insertKey rest k v

/-- Lookup in the binding map model. -/
def lookupKey : List (Char × String) → Char → Option String
  | [], _ => none
  | (k', v') :: rest, k => if k = k' then some v' else lookupKey rest k

/-- The error message `parse_key_mapping` formats for an offending path. -/
def keyMappingErr (path : String) : String :=
  path ++ " exists and it's not a directory!"

/-- The loop body of `App::parse_key_mapping`, with the accumulated binding
map and action list threaded through: fail on an existing non-directory,
synthesize `MkDir` for an absent path, record the binding (last write wins). -/
def parseKeyMappingGo (fs : String → PathState) :
    List (Char × String) → List (Char × String) → List Action →
    Except String (List (Char × String) × List Action)
  | [], km, acts => .ok (km, acts)
  | (key, path) :: rest, km, acts =>
    if fs path = .nonDirectory then
      .error (keyMappingErr path)
    else
      let acts' := if fs path = .absent then acts ++ [Action.MkDir path] else acts
      parseKeyMappingGo fs rest (insertKey km key path) acts'

/-- `App::parse_key_mapping` over the abstract filesystem `fs`. -/
def parse_key_mapping (fs : String → PathState) (args : List (Char × String)) :
    Except String (List (Char × String) × List Action) :=
  parseKeyMappingGo fs args [] []

/-- A directory's contents as walked by `discover_images`: a forest of
entries, in `read_dir` enumeration order.  `fsfile` carries whether
`App::is_image` accepts the file (extension plus content sniffing, both
abstracted into one boolean); `fsdir` carries the nested entries. -/
inductive Fs where
  | fsnil : Fs
  | fsfile (name : String) (isImage : Bool) (rest : Fs) : Fs
  | fsdir (name : String) (entries : Fs) (rest : Fs) : Fs
  deriving DecidableEq, Repr

/-- `App::discover_images` on the entry list of a readable directory:
threads the shared `parent_count` counter, breaks out of the loop once the
counter exceeds 500, descends into a subdirectory when `is_first || recurse`,
and collects a qualifying image while bumping the counter.  Returns the
collected paths (as component lists relative to the invocation root, in
encounter order) together with the final counter. -/
def discover : Fs → Bool → Bool → Nat → List (List String) × Nat
  | .fsnil, _, _, cnt => ([], cnt)
  | .fsfile name isImage rest, recurse, is_first, cnt =>
    if cnt > 500 then ([], cnt)
    else if isImage then
      let r := discover rest recurse is_first (cnt + 1)
      ([name] :: r.1, r.2)
    else discover rest recurse is_first cnt
  | .fsdir name entries rest, recurse, is_first, cnt =>
    if cnt > 500 then ([], cnt)
    else if is_first || recurse then
      let sub := discover entries recurse false cnt
      let r := discover rest recurse is_first sub.2
      (sub.1.map (fun p => name :: p) ++ r.1, r.2)
    else discover rest recurse is_first cnt

/-- One root of `App::parse_images`: `discover_images(root, recurse, true, &mut 0)`
on the root's entries. -/
def discoverRoot (root : Fs) (recurse : Bool) : List (List String) :=
  (discover root recurse true 0).1

/-- Total number of qualifying images anywhere in a forest (what a fully
recursive, uncapped walk would reach). -/
def totalImages : Fs → Nat
  | .fsnil => 0
  | .fsfile _ isImage rest => (if isImage then 1 else 0) + totalImages rest
  | .fsdir _ entries rest => totalImages entries + totalImages rest

/-- A flat directory of `n` qualifying images. -/
def mkFlat : Nat → Fs
  | 0 => .fsnil
  | n + 1 => .fsfile "a.png" true (mkFlat n)

/-- States reachable from `App::new`ʼs initial state through the public
mutators the claims quantify over.  The pre-seeded log holds only the
`MkDir` actions synthesized by `parse_key_mapping`. -/
inductive Reachable (images : List String) (seed : List Action) : AppState → Prop
  | init (km : List (Char × String)) (output : String)
      (hseed : ∀ a ∈ seed, ∃ d, a = Action.MkDir d) :
      Reachable images seed (app_new images km seed output)
  | push {s : AppState} (a : Action) :
      Reachable images seed s → Reachable images seed (push_action s a)
  | pop {s : AppState} :
      Reachable images seed s → Reachable images seed (pop_action s)
  | tab {s : AppState} :
      Reachable images seed s → Reachable images seed (switch_tab s)
  | up {s : AppState} :
      Reachable images seed s → Reachable images seed (scroll_up s)
  | down {s : AppState} :
      Reachable images seed s → Reachable images seed (scroll_down s)
  | left {s : AppState} :
      Reachable images seed s → Reachable images seed (scroll_left s)
  | right {s : AppState} :
      Reachable images seed s → Reachable images seed (scroll_right s)

/-- Reachability through the same mutators except `pop_action`
(used by the amended scroll-bound claim). -/
inductive ReachableNoPop (images : List String) (seed : List Action) : AppState → Prop
  | init (km : List (Char × String)) (output : String)
      (hseed : ∀ a ∈ seed, ∃ d, a = Action.MkDir d) :
      ReachableNoPop images seed (app_new images km seed output)
  | push {s : AppState} (a : Action) :
      ReachableNoPop images seed s → ReachableNoPop images seed (push_action s a)
  | tab {s : AppState} :
      ReachableNoPop images seed s → ReachableNoPop images seed (switch_tab s)
  | up {s : AppState} :
      ReachableNoPop images seed s → ReachableNoPop images seed (scroll_up s)
  | down {s : AppState} :
      ReachableNoPop images seed s → ReachableNoPop images seed (scroll_down s)
  | left {s : AppState} :
      ReachableNoPop images seed s → ReachableNoPop images seed (scroll_left s)
  | right {s : AppState} :
      ReachableNoPop images seed s → ReachableNoPop images seed (scroll_right s)

/-- Iterated `pop_action`. -/
def popN : Nat → AppState → AppState
  | 0, s => s
  | n + 1, s => popN n (pop_action s)

@[simp]
theorem sumSteps_nil : sumSteps [] = 0 := rfl

@[simp]
theorem sumSteps_cons (a : Action) (l : List Action) :
    sumSteps (a :: l) = a.queue_step + sumSteps l := by
  simp [sumSteps]

@[simp]
theorem sumSteps_append (l : List Action) (a : Action) :
    sumSteps (l ++ [a]) = sumSteps l + a.queue_step := by
  simp [sumSteps]

theorem sumSteps_of_mkdirs {l : List Action}
    (h : ∀ a ∈ l, ∃ d, a = Action.MkDir d) : sumSteps l = 0 := by
  induction l with
  | nil => rfl
  | cons b t ih =>
    obtain ⟨d, rfl⟩ := h b (by simp)
    have ht := ih fun a ha => h a (by simp [ha])
    simp [Action.queue_step, ht]

/-- An action that is not poppable is a `MkDir`, whose queue step is zero. -/
theorem queue_step_of_not_poppable {a : Action} (h : a.is_poppable = false) :
    a.queue_step = 0 := by
  cases a <;> simp_all [Action.is_poppable, Action.queue_step]

/-- The queue step of any action in a log is bounded by the log's step sum. -/
theorem queue_step_le_sumSteps {l : List Action} {a : Action} (h : a ∈ l) :
    a.queue_step ≤ sumSteps l := by
  induction l with
  | nil => cases h
  | cons b t ih =>
    rcases List.mem_cons.mp h with rfl | h
    · simp only [sumSteps_cons]; omega
    · have := ih h
      simp only [sumSteps_cons]; omega

/-- The cursor invariant: in every reachable state the cursor equals the sum
of queue steps over the action log. -/
theorem reachable_cursor_eq_sum {images : List String} {seed : List Action}
    {s : AppState} (h : Reachable images seed s) :
    s.current = sumSteps s.actions := by
  induction h with
  | init km output hseed =>
    simp [app_new, sumSteps_of_mkdirs hseed]
  | push a _ ih =>
    unfold push_action
    split
    · exact ih
    · simp [ih]
  | pop h ih =>
    rename_i s
    unfold pop_action
    cases hl : s.actions.getLast? with
    | none => exact ih
    | some last =>
      have hdec : s.actions.dropLast ++ [last] = s.actions :=
        List.dropLast_append_getLast? last hl
      have hsum : sumSteps s.actions = sumSteps s.actions.dropLast + last.queue_step := by
        rw [← hdec, sumSteps_append, List.dropLast_concat]
      by_cases hp : last.is_poppable
      · simp only [hp, if_true]
        omega
      · simp only [Bool.not_eq_true] at hp
        simp only [hp, Bool.false_eq_true, if_false]
        have h0 := queue_step_of_not_poppable hp
        simp [h0, ih]
  | tab _ ih => exact ih
  | up _ ih => unfold scroll_up; split <;> exact ih
  | down _ ih => unfold scroll_down; split <;> exact ih
  | left _ ih => unfold scroll_left; split <;> exact ih
  | right _ ih => exact ih

/-- A single `pop_action` keeps every `MkDir` entry at its log position:
removal only ever affects the tail, and the tail is removed only when
poppable, which a `MkDir` never is. -/
theorem pop_preserves_mkdir {s : AppState} {i : Nat} {d : String}
    (h : s.actions[i]? = some (Action.MkDir d)) :
    (pop_action s).actions[i]? = some (Action.MkDir d) := by
  unfold pop_action
  cases hl : s.actions.getLast? with
  | none => exact h
  | some last =>
    have hdec : s.actions.dropLast ++ [last] = s.actions :=
      List.dropLast_append_getLast? last hl
    by_cases hp : last.is_poppable
    · simp only [hp, if_true]
      have hi : i < s.actions.dropLast.length := by
        by_contra hni
        push_neg at hni
        rw [← hdec, List.getElem?_append_right hni] at h
        cases hji : i - s.actions.dropLast.length with
        | zero =>
          rw [hji] at h
          simp only [List.getElem?_cons_zero, Option.some.injEq] at h
          subst h
          simp [Action.is_poppable] at hp
        | succ j =>
          rw [hji] at h
          simp at h
      rw [← hdec, List.getElem?_append_left hi] at h
      exact h
    · simp only [Bool.not_eq_true] at hp
      simp only [hp, Bool.false_eq_true, if_false]
      exact h

/-- Iterating `pop_action` keeps every `MkDir` entry at its log position. -/
theorem popN_preserves_mkdir {i : Nat} {d : String} :
    ∀ (n : Nat) (s : AppState), s.actions[i]? = some (Action.MkDir d) →
      (popN n s).actions[i]? = some (Action.MkDir d)
  | 0, _, h => h
  | n + 1, s, h => popN_preserves_mkdir n (pop_action s) (pop_preserves_mkdir h)

/-- C1: for every sequence of the public operations applied from the initial
state (cursor 0, log holding only the pre-seeded zero-step `MkDir` actions),
after every operation the cursor equals the sum of `queue_step` over all
actions currently in the log.  (The reachability relation includes the tab
and scroll operations as well; they do not touch the cursor or the log.) -/
theorem c1_cursor_eq_sum_steps (images : List String) (seed : List Action)
    (s : AppState) (h : Reachable images seed s) :
    s.current = sumSteps s.actions :=
  reachable_cursor_eq_sum h

/-- Witness for C1: one `push_action` of a `Skip` from a concrete initial
state, where the cursor 1 equals the step sum of the singleton log. -/
theorem c1_cursor_eq_sum_steps_witness :
    (push_action (app_new ["i"] [] [] "o") (Action.Skip "i")).current
      = sumSteps (push_action (app_new ["i"] [] [] "o") (Action.Skip "i")).actions :=
  c1_cursor_eq_sum_steps ["i"] [] _
    (Reachable.push _ (Reachable.init [] "o" (by simp)))

/-- C6: once a `MkDir` action is in the log of a reachable state, no sequence
of `pop_action` calls removes it: it is still present at the same log
position after any number of pops. -/
theorem c6_mkdir_never_removed (images : List String) (seed : List Action)
    (s : AppState) (i : Nat) (d : String) (n : Nat)
    (_hreach : Reachable images seed s)
    (h : s.actions[i]? = some (Action.MkDir d)) :
    (popN n s).actions[i]? = some (Action.MkDir d) :=
  popN_preserves_mkdir n s h

/-- Witness for C6: a pre-seeded `MkDir` in a concrete reachable state
survives one pop. -/
theorem c6_mkdir_never_removed_witness :
    (popN 1 (app_new [] [] [Action.MkDir "d"] "o")).actions[0]?
      = some (Action.MkDir "d") :=
  c6_mkdir_never_removed [] [Action.MkDir "d"] _ 0 "d" 1
    (Reachable.init [] "o" (fun a ha => ⟨"d", by simpa using ha⟩))
    (by simp [app_new])

/-- C7: `push_action` when the cursor equals the image-list length leaves the
entire state unchanged (every field, by the early return). -/
theorem c7_push_at_end_noop (s : AppState) (a : Action)
    (h : s.current = s.images.length) :
    push_action s a = s := by
  simp [push_action, h]

/-- Witness for C7: pushing onto a concrete completed review (no images,
cursor 0) changes nothing. -/
theorem c7_push_at_end_noop_witness :
    push_action (app_new [] [] [] "o") (Action.Skip "x") = app_new [] [] [] "o" :=
  c7_push_at_end_noop (app_new [] [] [] "o") (Action.Skip "x") (by simp [app_new])

/-- C9: in every reachable state the tail action's queue step never exceeds
the cursor, so the `usize` subtraction `self.current -= last_action.queue_step()`
in `pop_action` never underflows; and `pop_action` on an empty log leaves the
state unchanged. -/
theorem c9_pop_never_underflows (images : List String) (seed : List Action)
    (s : AppState) (h : Reachable images seed s) :
    (∀ a, s.actions.getLast? = some a → a.queue_step ≤ s.current) ∧
      (s.actions.getLast? = none → pop_action s = s) := by
  constructor
  · intro a ha
    have hsum := reachable_cursor_eq_sum h
    have hdec : s.actions.dropLast ++ [a] = s.actions :=
      List.dropLast_append_getLast? a ha
    have hmem : a ∈ s.actions := by
      rw [← hdec]; simp
    have := queue_step_le_sumSteps hmem
    omega
  · intro ha
    simp [pop_action, ha]

/-- Witness for C9: in a concrete reachable state with one `Skip` in the log,
the tail's step 1 is at most the cursor 1. -/
theorem c9_pop_never_underflows_witness :
    (Action.Skip "i").queue_step
      ≤ (push_action (app_new ["i"] [] [] "o") (Action.Skip "i")).current :=
  (c9_pop_never_underflows ["i"] [] _
    (Reachable.push _ (Reachable.init [] "o" (by simp)))).1
    (Action.Skip "i") (by decide)

/-- The state refuting the C8 scroll bound: push one `Skip`, scroll down four
times (allowed while the log has one action), then pop the `Skip`. -/
def c8State : AppState :=
  pop_action (scroll_down (scroll_down (scroll_down (scroll_down
    (push_action (app_new ["i"] [] [] "o") (Action.Skip "i"))))))

/-- Counterexample to C8 as stated: `c8State` is reachable through the listed
public operations, yet its vertical scroll offset is 4 while its log is
empty, exceeding `actionCount + 3 = 3` (`pop_action` shrinks the log without
clamping the offsets). -/
theorem c8_counterexample :
    Reachable ["i"] [] c8State ∧
      ¬ c8State.script_offset.1 ≤ c8State.actions.length + 3 := by
  constructor
  · exact Reachable.pop (Reachable.down (Reachable.down (Reachable.down
      (Reachable.down (Reachable.push _ (Reachable.init [] "o" (by simp)))))))
  · decide

/-- C8 (amended): in every state reachable without `pop_action` (i.e. through
`push_action`, `switch_tab` and the four scroll operations), both scroll
offsets are non-negative and the vertical offset is at most
`actionCount + 3`.  (`pop_action` can shrink the log below an offset already
reached, as the counterexample shows.) -/
theorem c8_scroll_bounds_no_pop (images : List String) (seed : List Action)
    (s : AppState) (h : ReachableNoPop images seed s) :
    0 ≤ s.script_offset.1 ∧ 0 ≤ s.script_offset.2 ∧
      s.script_offset.1 ≤ s.actions.length + 3 := by
  refine ⟨Nat.zero_le _, Nat.zero_le _, ?_⟩
  induction h with
  | init km output hseed => simp [app_new]
  | push a _ ih =>
    unfold push_action
    split
    · exact ih
    · simp only [List.length_append, List.length_cons, List.length_nil]
      omega
  | tab _ ih => simp [switch_tab]
  | up _ ih =>
    unfold scroll_up
    split
    · simp only []
      omega
    · exact ih
  | down _ ih =>
    rename_i s hprev
    unfold scroll_down
    split
    · rename_i hlt
      simp only [] at hlt ⊢
      have h1 : s.actions.length % 65536 ≤ s.actions.length := Nat.mod_le _ _
      have h2 : (s.actions.length % 65536 + 3) % 65536 ≤ s.actions.length % 65536 + 3 :=
        Nat.mod_le _ _
      omega
    · exact ih
  | left _ ih =>
    unfold scroll_left
    split
    · simpa using ih
    · exact ih
  | right _ ih => simpa using ih

/-- Witness for C8 (amended): a concrete no-pop reachable state (one push,
one scroll down) satisfies the bounds. -/
theorem c8_scroll_bounds_no_pop_witness :
    0 ≤ (scroll_down (push_action (app_new ["i"] [] [] "o")
          (Action.Skip "i"))).script_offset.1 ∧
    0 ≤ (scroll_down (push_action (app_new ["i"] [] [] "o")
          (Action.Skip "i"))).script_offset.2 ∧
    (scroll_down (push_action (app_new ["i"] [] [] "o")
          (Action.Skip "i"))).script_offset.1
      ≤ (scroll_down (push_action (app_new ["i"] [] [] "o")
          (Action.Skip "i"))).actions.length + 3 :=
  c8_scroll_bounds_no_pop ["i"] [] _
    (ReachableNoPop.down (ReachableNoPop.push _ (ReachableNoPop.init [] "o" (by simp))))

/-- The line-accumulating loop of `App::write` is `filterMap actionLine`
appended to the initial accumulator. -/
theorem write_fold_eq_filterMap (actions : List Action) :
    ∀ acc : List String,
      actions.foldl
        (fun ls a =>
          match actionLine a with
          | some line => ls ++ [line]
          | none => ls)
        acc = acc ++ actions.filterMap actionLine := by
  induction actions with
  | nil => intro acc; simp
  | cons a rest ih =>
    intro acc
    cases h : actionLine a with
    | none => simp [List.foldl_cons, h, ih]
    | some line => simp [List.foldl_cons, h, ih]

/-- C2: the script is exactly the `#!/bin/sh` line followed, in log order, by
one `mkdir -p "<d>"` / `mv "<src>" "<d>"` / `rm "<p>"` line per
`MkDir`/`Move`/`Delete` action (`Skip` and `Rename` contribute no line), all
joined by single newlines; in particular the log
`[MkDir d1, Move a d1, Skip b, Delete c]` serializes byte-for-byte to
the spec's example string. -/
theorem c2_write_script (actions : List Action) :
    writeScript actions
        = String.intercalate "\n" ("#!/bin/sh" :: actions.filterMap actionLine)
      ∧ writeScript
          [Action.MkDir "d1", Action.Move "a" "d1", Action.Skip "b", Action.Delete "c"]
        = "#!/bin/sh\nmkdir -p \"d1\"\nmv \"a\" \"d1\"\nrm \"c\"" := by
  constructor
  · unfold writeScript
    rw [write_fold_eq_filterMap actions ["#!/bin/sh"]]
    rfl
  · rfl

/-- A two-valued abstract filesystem for witnesses: `"new"` is absent,
everything else is an existing directory. -/
def fsNewAbsent : String → PathState :=
  fun p => if p = "new" then .absent else .directory

/-- `parseKeyMappingGo` returns an error exactly when some remaining pair's
path is an existing non-directory. -/
theorem parseGo_error_iff (fs : String → PathState) :
    ∀ (args km : List (Char × String)) (acts : List Action),
      (∃ e, parseKeyMappingGo fs args km acts = .error e)
        ↔ ∃ p ∈ args, fs p.2 = PathState.nonDirectory := by
  intro args
  induction args with
  | nil =>
    intro km acts
    simp [parseKeyMappingGo]
  | cons kp rest ih =>
    intro km acts
    obtain ⟨k, path⟩ := kp
    by_cases hnd : fs path = PathState.nonDirectory
    · simp [parseKeyMappingGo, hnd]
    · simp only [parseKeyMappingGo, hnd, if_false]
      rw [ih]
      simp [hnd]

/-- When `parseKeyMappingGo` fails, the error message names an offending
existing non-directory path among the remaining pairs. -/
theorem parseGo_error_msg (fs : String → PathState) :
    ∀ (args km : List (Char × String)) (acts : List Action) (e : String),
      parseKeyMappingGo fs args km acts = .error e →
        ∃ p ∈ args, fs p.2 = PathState.nonDirectory ∧ e = keyMappingErr p.2 := by
  intro args
  induction args with
  | nil =>
    intro km acts e h
    simp [parseKeyMappingGo] at h
  | cons kp rest ih =>
    intro km acts e h
    obtain ⟨k, path⟩ := kp
    by_cases hnd : fs path = PathState.nonDirectory
    · simp only [parseKeyMappingGo, hnd, if_true, Except.error.injEq] at h
      exact ⟨(k, path), by simp, hnd, h.symm⟩
    · simp only [parseKeyMappingGo, hnd, if_false] at h
      obtain ⟨p, hp, hnd', he⟩ := ih _ _ _ h
      exact ⟨p, by simp [hp], hnd', he⟩

/-- When `parseKeyMappingGo` succeeds, the returned actions are the incoming
accumulator followed by one `MkDir` per remaining pair whose path is absent,
in encounter order. -/
theorem parseGo_ok_actions (fs : String → PathState) :
    ∀ (args km : List (Char × String)) (acts : List Action)
      (km' : List (Char × String)) (acts' : List Action),
      parseKeyMappingGo fs args km acts = .ok (km', acts') →
        acts' = acts ++ args.filterMap
          (fun kp => if fs kp.2 = PathState.absent
                     then some (Action.MkDir kp.2) else none) := by
  intro args
  induction args with
  | nil =>
    intro km acts km' acts' h
    simp only [parseKeyMappingGo, Except.ok.injEq, Prod.mk.injEq] at h
    simp [← h.2]
  | cons kp rest ih =>
    intro km acts km' acts' h
    obtain ⟨k, path⟩ := kp
    by_cases hnd : fs path = PathState.nonDirectory
    · simp [parseKeyMappingGo, hnd] at h
    · simp only [parseKeyMappingGo, hnd, if_false] at h
      by_cases habs : fs path = PathState.absent
      · simp only [habs, if_true] at h
        have := ih _ _ _ _ h
        simp [this, habs]
      · simp only [habs, if_false] at h
        have := ih _ _ _ _ h
        simp [this, habs, hnd]

/-- C5: `parse_key_mapping` fails (naming the offending path in the error)
iff some pair's path is an existing non-directory; otherwise it succeeds and
the pre-seeded log holds exactly one `MkDir` per absent-path pair, in
encounter order. -/
theorem c5_parse_key_mapping (fs : String → PathState)
    (args : List (Char × String)) :
    ((∃ e, parse_key_mapping fs args = .error e)
        ↔ ∃ p ∈ args, fs p.2 = PathState.nonDirectory)
      ∧ (∀ e, parse_key_mapping fs args = .error e →
          ∃ p ∈ args, fs p.2 = PathState.nonDirectory ∧ e = keyMappingErr p.2)
      ∧ (∀ km acts, parse_key_mapping fs args = .ok (km, acts) →
          acts = args.filterMap
            (fun kp => if fs kp.2 = PathState.absent
                       then some (Action.MkDir kp.2) else none)) := by
  refine ⟨parseGo_error_iff fs args [] [], ?_, ?_⟩
  · intro e h
    exact parseGo_error_msg fs args [] [] e h
  · intro km acts h
    simpa using parseGo_ok_actions fs args [] [] km acts h

/-- Witness for C5: on a concrete two-pair configuration over `fsNewAbsent`
(one absent path, one existing directory) the pre-seeded log is exactly
`[MkDir "new"]`. -/
theorem c5_parse_key_mapping_witness :
    [Action.MkDir "new"]
      = [('a', "new"), ('b', "dir")].filterMap
          (fun kp => if fsNewAbsent kp.2 = PathState.absent
                     then some (Action.MkDir kp.2) else none) :=
  (c5_parse_key_mapping fsNewAbsent [('a', "new"), ('b', "dir")]).2.2
    [('a', "new"), ('b', "dir")] [Action.MkDir "new"] rfl

/-- C10: a repeated trigger character with two distinct non-existent paths
succeeds, the binding resolves to the later path (last write wins), yet the
pre-seeded log holds a `MkDir` for both paths, the overridden one included. -/
theorem c10_duplicate_key_both_mkdirs (fs : String → PathState) (c : Char)
    (p1 p2 : String) (_hne : p1 ≠ p2)
    (h1 : fs p1 = PathState.absent) (h2 : fs p2 = PathState.absent) :
    parse_key_mapping fs [(c, p1), (c, p2)]
        = .ok ([(c, p2)], [Action.MkDir p1, Action.MkDir p2])
      ∧ lookupKey [(c, p2)] c = some p2 := by
  constructor
  · simp [parse_key_mapping, parseKeyMappingGo, h1, h2, insertKey]
  · simp [lookupKey]

/-- Witness for C10: the concrete duplicate binding `a → "p1"` then
`a → "p2"` with both paths absent. -/
theorem c10_duplicate_key_both_mkdirs_witness :
    parse_key_mapping (fun _ => PathState.absent) [('a', "p1"), ('a', "p2")]
        = .ok ([('a', "p2")], [Action.MkDir "p1", Action.MkDir "p2"])
      ∧ lookupKey [('a', "p2")] 'a' = some "p2" :=
  c10_duplicate_key_both_mkdirs (fun _ => PathState.absent) 'a' "p1" "p2"
    (by decide) rfl rfl

/-- Counting lemma for the capped walk with recursion enabled: starting from
counter `cnt ≤ 501`, the walk ends with counter `min 501 (cnt + totalImages fs)`
and collects exactly the difference.  (The cap check `cnt > 500` sits before
each entry, after the image that pushed the counter to 501 was already
collected — hence 501, not 500.) -/
theorem discover_count (fs : Fs) :
    ∀ (b : Bool) (cnt : Nat), cnt ≤ 501 →
      (discover fs true b cnt).2 = min 501 (cnt + totalImages fs) ∧
      (discover fs true b cnt).1.length = min 501 (cnt + totalImages fs) - cnt := by
  induction fs with
  | fsnil =>
    intro b cnt h
    simp [discover, totalImages]
    omega
  | fsfile name isImage rest ih =>
    intro b cnt h
    by_cases hc : cnt > 500
    · have hcnt : cnt = 501 := by omega
      simp [discover, hc, totalImages]
      omega
    · by_cases himg : isImage
      · have hrest := ih b (cnt + 1) (by omega)
        simp only [discover, hc, if_false, himg, if_true, List.length_cons,
          totalImages]
        omega
      · have hrest := ih b cnt h
        simp only [discover, hc, if_false, himg, Bool.false_eq_true,
          totalImages]
        simpa [himg] using hrest
  | fsdir name entries rest ihe ihr =>
    intro b cnt h
    by_cases hc : cnt > 500
    · have hcnt : cnt = 501 := by omega
      simp [discover, hc, totalImages]
      omega
    · have hsub := ihe false cnt h
      have hsub_le : (discover entries true false cnt).2 ≤ 501 := by omega
      have hrest := ihr b (discover entries true false cnt).2 hsub_le
      simp only [discover, hc, if_false, Bool.or_true, if_true,
        List.length_append, List.length_map, totalImages]
      omega

/-- The flat directory of `n` images holds `n` qualifying images. -/
theorem totalImages_mkFlat : ∀ n : Nat, totalImages (mkFlat n) = n
  | 0 => rfl
  | n + 1 => by simp [mkFlat, totalImages, totalImages_mkFlat n]; omega

/-- Counterexample to C3 as stated: a flat root with 600 qualifying images
yields 501 results, not 500 — the loop's `*parent_count > 500` check lets the
501st image through before breaking. -/
theorem c3_counterexample :
    totalImages (mkFlat 600) = 600 ∧
      (discoverRoot (mkFlat 600) true).length ≠ 500 := by
  have h6 := totalImages_mkFlat 600
  have hcount := (discover_count (mkFlat 600) true 0 (by omega)).2
  refine ⟨h6, ?_⟩
  unfold discoverRoot
  omega

/-- C3 (amended): discovery on a directory tree with 600 qualifying images
and recursion enabled returns exactly 501 results (and cannot error: the
model of the walk is total, mirroring the source's silent skip of unreadable
directories). -/
theorem c3_cap_501 (root : Fs) (h : totalImages root = 600) :
    (discoverRoot root true).length = 501 := by
  have hcount := (discover_count root true 0 (by omega)).2
  unfold discoverRoot
  omega

/-- Witness for C3 (amended): the concrete flat tree of 600 images. -/
theorem c3_cap_501_witness :
    (discoverRoot (mkFlat 600) true).length = 501 :=
  c3_cap_501 (mkFlat 600) (totalImages_mkFlat 600)

/-- Below the first level with recursion disabled, every collected path is a
direct entry (one component): subdirectories are not descended into. -/
theorem discover_norecurse_inner (fs : Fs) :
    ∀ (cnt : Nat) (p : List String),
      p ∈ (discover fs false false cnt).1 → p.length = 1 := by
  induction fs with
  | fsnil => intro cnt p hp; simp [discover] at hp
  | fsfile name isImage rest ih =>
    intro cnt p hp
    by_cases hc : cnt > 500
    · simp [discover, hc] at hp
    · by_cases himg : isImage
      · simp only [discover, hc, if_false, himg, if_true,
          List.mem_cons] at hp
        rcases hp with rfl | hp
        · rfl
        · exact ih _ _ hp
      · simp only [discover, hc, if_false, himg, Bool.false_eq_true] at hp
        exact ih _ _ (by simpa [himg] using hp)
  | fsdir name entries rest ihe ihr =>
    intro cnt p hp
    by_cases hc : cnt > 500
    · simp [discover, hc] at hp
    · simp only [discover, hc, if_false, Bool.or_false] at hp
      exact ihr _ _ hp

/-- At the root level with recursion disabled, every collected path has at
most two components: the root's entries are enumerated, its immediate
subdirectories are descended into once, and nothing deeper is visited. -/
theorem discover_norecurse_root (fs : Fs) :
    ∀ (cnt : Nat) (p : List String),
      p ∈ (discover fs false true cnt).1 → p.length ≤ 2 := by
  induction fs with
  | fsnil => intro cnt p hp; simp [discover] at hp
  | fsfile name isImage rest ih =>
    intro cnt p hp
    by_cases hc : cnt > 500
    · simp [discover, hc] at hp
    · by_cases himg : isImage
      · simp only [discover, hc, if_false, himg, if_true,
          List.mem_cons] at hp
        rcases hp with rfl | hp
        · simp
        · exact ih _ _ hp
      · simp only [discover, hc, if_false, himg, Bool.false_eq_true] at hp
        exact ih _ _ (by simpa [himg] using hp)
  | fsdir name entries rest ihe ihr =>
    intro cnt p hp
    by_cases hc : cnt > 500
    · simp [discover, hc] at hp
    · simp only [discover, hc, if_false, Bool.true_or, if_true,
        List.mem_append, List.mem_map] at hp
      rcases hp with ⟨q, hq, rfl⟩ | hp
      · have := discover_norecurse_inner entries _ _ hq
        simp [this]
      · exact ihr _ _ hp

/-- The tree refuting C4: a root whose only entry is the subdirectory `d`
holding the qualifying image `a.png`. -/
def c4Tree : Fs := .fsdir "d" (.fsfile "a.png" true .fsnil) .fsnil

/-- Counterexample to C4 as stated: with recursion disabled, the image inside
the root's immediate subdirectory `d` still appears in the result — the root
level's subdirectories are descended into regardless of the flag. -/
theorem c4_counterexample :
    discoverRoot c4Tree false = [["d", "a.png"]] ∧
      ¬ ∀ p ∈ discoverRoot c4Tree false, p.length ≤ 1 := by
  constructor
  · rfl
  · intro hall
    have := hall ["d", "a.png"] (by rw [show discoverRoot c4Tree false
      = [["d", "a.png"]] from rfl]; simp)
    simp at this

/-- C4 (amended): the root is always enumerated and its immediate
subdirectories are always descended into regardless of the recursion flag;
only directories strictly deeper require recursion.  Hence with recursion
disabled every discovered path has at most two components (root entry, or
entry of an immediate subdirectory), never more. -/
theorem c4_norecurse_depth_le_two (root : Fs) (p : List String)
    (h : p ∈ discoverRoot root false) : p.length ≤ 2 :=
  discover_norecurse_root root 0 p h

/-- Witness for C4 (amended): the depth-two path found in `c4Tree`. -/
theorem c4_norecurse_depth_le_two_witness :
    (["d", "a.png"] : List String).length ≤ 2 :=
  c4_norecurse_depth_le_two c4Tree ["d", "a.png"] (by
    rw [show discoverRoot c4Tree false = [["d", "a.png"]] from rfl]
    simp)

end ImageSorter
